import Mathlib

/-!
Shallow embedding of the proton toolkit's core algorithms, translated from the
Go sources:

* `pkg/daml/hash/hash.go` — deterministic structural hashing of a
  `PreparedTransaction` (encodings, node DAG traversal, metadata hash);
* `pkg/canton/crypto.go` — purpose-tagged multihash and key fingerprints;
* `pkg/processor/processor.go` — the versioned-envelope wrapping step of
  `compressBytes`, together with a model of the protobuf wire format of
  `UntypedVersionedMessage \x7b data: bytes = 1; version: int32 = 2 \x7d`;
* `pkg/io/io.go` — the `ReadData` input-specifier resolver;
* `pkg/template/template.go` — the JSON template generator.

Bytes are modelled as `Nat`s below 256, byte strings as `List Nat`.  Go's
machine integers are modelled as `Int`/`Nat` with explicit reductions
mod `2 ^ 32` / `2 ^ 64` at the points where Go converts or overflows.
-/

namespace Proton

/-! ## Byte-level primitives -/

/-- Big-endian bytes of `v`, exactly `k` bytes (masking above `2 ^ (8 k)`),
as produced by `binary.BigEndian.PutUint32`/`PutUint64`. -/
def toBytesBE : Nat → Nat → List Nat
  | 0, _ => []
  | k + 1, v => (v >>> (8 * k)) % 256 :: toBytesBE k v

theorem toBytesBE_length (k v : Nat) : (toBytesBE k v).length = k := by
  induction k generalizing v with
  | zero => rfl
  | succ n ih => simp [toBytesBE, ih]

/-- Go `uint32(v)` for an `int` value: two's-complement truncation. -/
def uint32OfInt (v : Int) : Nat := (v % ((2 : Int) ^ 32)).toNat

/-- Go `uint64(v)` for an `int64` value: two's-complement truncation. -/
def uint64OfInt (v : Int) : Nat := (v % ((2 : Int) ^ 64)).toNat

/-- Model of `encodeBytes` from `hash.go`: 4-byte big-endian length, then the bytes. -/
def encodeBytes (v : List Nat) : List Nat := toBytesBE 4 v.length ++ v

/-- UTF-8 encoding of one character (Go strings are UTF-8 byte slices). -/
def utf8Char (c : Char) : List Nat :=
  let n := c.toNat
  if n < 0x80 then [n]
  else if n < 0x800 then [0xC0 + n / 0x40, 0x80 + n % 0x40]
  else if n < 0x10000 then
    [0xE0 + n / 0x1000, 0x80 + n / 0x40 % 0x40, 0x80 + n % 0x40]
  else
    [0xF0 + n / 0x40000, 0x80 + n / 0x1000 % 0x40, 0x80 + n / 0x40 % 0x40,
      0x80 + n % 0x40]

/-- Go `[]byte(s)`: the UTF-8 bytes of a string. -/
def strBytes (s : String) : List Nat := (s.data.map utf8Char).flatten

/-- Model of `encodeString` from `hash.go`. -/
def encodeString (v : String) : List Nat := encodeBytes (strBytes v)

/-- Model of `encodeInt32` from `hash.go`: `uint32(v)` big-endian.  Modelling `int32`
values as `Int`, the emitted word is the value mod `2 ^ 32`. -/
def encodeInt32 (v : Int) : List Nat := toBytesBE 4 (uint32OfInt v)

/-- Model of `encodeInt64` from `hash.go`: `uint64(v)` big-endian. -/
def encodeInt64 (v : Int) : List Nat := toBytesBE 8 (uint64OfInt v)

/-- Model of `encodeBool` from `hash.go`. -/
def encodeBool (v : Bool) : List Nat := if v then [0x01] else [0x00]

/-- Model of `encodeRepeated` from `hash.go`: `encodeInt32(int32(len(items)))` followed
by the concatenated encodings. -/
def encodeRepeated {α : Type} (items : List α) (encodeFn : α → List Nat) :
    List Nat :=
  encodeInt32 (Int.ofNat items.length) ++ (items.map encodeFn).flatten

/-- Model of `encodeOptional` from `hash.go`: `0x00` if absent, else `0x01 || inner`. -/
def encodeOptional (present : Bool) (encodeFn : Unit → List Nat) : List Nat :=
  if present then 0x01 :: encodeFn () else [0x00]

/-! ## Hex encoding and decoding (Go `encoding/hex`) -/

/-- Value of one hex digit, as Go's `fromHexChar`. -/
def fromHexChar (c : Char) : Option Nat :=
  let n := c.toNat
  if 48 ≤ n ∧ n ≤ 57 then some (n - 48)
  else if 97 ≤ n ∧ n ≤ 102 then some (n - 97 + 10)
  else if 65 ≤ n ∧ n ≤ 70 then some (n - 65 + 10)
  else none

/-- Go `hex.DecodeString(s)` keeping only the successfully decoded output:
pairs of hex digits are decoded until the first invalid character (or an odd
trailing digit), and the error is dropped, as `encodeHexString` in `hash.go`
does with `b, _ := hex.DecodeString(v)`. -/
def hexDecodeDroppingErr : List Char → List Nat
  | c1 :: c2 :: rest =>
    match fromHexChar c1, fromHexChar c2 with
    | some a, some b => (a * 16 + b) :: hexDecodeDroppingErr rest
    | _, _ => []
  | _ => []

/-- Model of `encodeHexString` from `hash.go`. -/
def encodeHexString (v : String) : List Nat :=
  encodeBytes (hexDecodeDroppingErr v.data)

/-- Go's lowercase `hextable` digits. -/
def hexDigitChar (n : Nat) : Char := "0123456789abcdef".data.getD n '0'

/-- Go `hex.EncodeToString`, as a character list: two lowercase digits per
byte (`hextable[b>>4]`, `hextable[b&0x0f]`). -/
def hexOfBytes (bs : List Nat) : List Char :=
  (bs.map (fun b => [hexDigitChar (b >>> 4), hexDigitChar (b % 16)])).flatten

theorem hexOfBytes_length (bs : List Nat) : (hexOfBytes bs).length = 2 * bs.length := by
  induction bs with
  | nil => rfl
  | cons b rest ih =>
    simp [hexOfBytes] at ih ⊢
    omega

/-! ## SHA-256 (Go `crypto/sha256`), executable model -/

/-- 32-bit modular addition. -/
def add32 (a b : Nat) : Nat := (a + b) % 2 ^ 32

/-- 32-bit right rotation. -/
def rotr32 (n x : Nat) : Nat := ((x >>> n) ||| (x <<< (32 - n))) % 2 ^ 32

/-- Model of the SHA-256 round constants (FIPS 180-4), in decimal. -/
def sha256K : List Nat :=
  [1116352408, 1899447441, 3049323471, 3921009573,
   961987163, 1508970993, 2453635748, 2870763221,
   3624381080, 310598401, 607225278, 1426881987,
   1925078388, 2162078206, 2614888103, 3248222580,
   3835390401, 4022224774, 264347078, 604807628,
   770255983, 1249150122, 1555081692, 1996064986,
   2554220882, 2821834349, 2952996808, 3210313671,
   3336571891, 3584528711, 113926993, 338241895,
   666307205, 773529912, 1294757372, 1396182291,
   1695183700, 1986661051, 2177026350, 2456956037,
   2730485921, 2820302411, 3259730800, 3345764771,
   3516065817, 3600352804, 4094571909, 275423344,
   430227734, 506948616, 659060556, 883997877,
   958139571, 1322822218, 1537002063, 1747873779,
   1955562222, 2024104815, 2227730452, 2361852424,
   2428436474, 2756734187, 3204031479, 3329325298]

/-- The eight hash words carried between chunks. -/
structure Sha2State where
  h0 : Nat
  h1 : Nat
  h2 : Nat
  h3 : Nat
  h4 : Nat
  h5 : Nat
  h6 : Nat
  h7 : Nat

/-- SHA-256 initial state (FIPS 180-4), in decimal. -/
def sha256Init : Sha2State :=
  ⟨1779033703, 3144134277, 1013904242, 2773480762,
   1359893119, 2600822924, 528734635, 1541459225⟩

/-- Working variables `a..h` of the compression loop. -/
structure Sha2Work where
  a : Nat
  b : Nat
  c : Nat
  d : Nat
  e : Nat
  f : Nat
  g : Nat
  h : Nat

/-- One SHA-256 round, keyed by `(K[t], W[t])`. -/
def sha256Round (w : Sha2Work) (kwi : Nat × Nat) : Sha2Work :=
  let s1 := rotr32 6 w.e ^^^ rotr32 11 w.e ^^^ rotr32 25 w.e
  let ch := (w.e &&& w.f) ^^^ ((w.e ^^^ (2 ^ 32 - 1)) &&& w.g)
  let temp1 := (w.h + s1 + ch + kwi.1 + kwi.2) % 2 ^ 32
  let s0 := rotr32 2 w.a ^^^ rotr32 13 w.a ^^^ rotr32 22 w.a
  let maj := (w.a &&& w.b) ^^^ (w.a &&& w.c) ^^^ (w.b &&& w.c)
  let temp2 := (s0 + maj) % 2 ^ 32
  ⟨(temp1 + temp2) % 2 ^ 32, w.a, w.b, w.c, (w.d + temp1) % 2 ^ 32, w.e, w.f,
    w.g⟩

/-- Big-endian 32-bit words of a 64-byte chunk. -/
def bytesToWords : List Nat → List Nat
  | b1 :: b2 :: b3 :: b4 :: rest =>
    ((b1 <<< 24) + (b2 <<< 16) + (b3 <<< 8) + b4) :: bytesToWords rest
  | _ => []

/-- Extend the 16-word schedule by `count` further words. -/
def schedFrom (ws : List Nat) : Nat → List Nat
  | 0 => ws
  | count + 1 =>
    let i := ws.length
    let x15 := ws.getD (i - 15) 0
    let x2 := ws.getD (i - 2) 0
    let s0 := rotr32 7 x15 ^^^ rotr32 18 x15 ^^^ (x15 >>> 3)
    let s1 := rotr32 17 x2 ^^^ rotr32 19 x2 ^^^ (x2 >>> 10)
    schedFrom (ws ++ [(ws.getD (i - 16) 0 + s0 + ws.getD (i - 7) 0 + s1) % 2 ^ 32])
      count

/-- SHA-256 compression of one 64-byte chunk. -/
def sha256Compress (st : Sha2State) (chunk : List Nat) : Sha2State :=
  let ws := schedFrom (bytesToWords chunk) 48
  let w0 : Sha2Work := ⟨st.h0, st.h1, st.h2, st.h3, st.h4, st.h5, st.h6, st.h7⟩
  let wf := (sha256K.zip ws).foldl sha256Round w0
  ⟨add32 st.h0 wf.a, add32 st.h1 wf.b, add32 st.h2 wf.c, add32 st.h3 wf.d,
   add32 st.h4 wf.e, add32 st.h5 wf.f, add32 st.h6 wf.g, add32 st.h7 wf.h⟩

/-- SHA-256 padding: `0x80`, zeros to 56 mod 64, 8-byte big-endian bit length. -/
def sha256Pad (msg : List Nat) : List Nat :=
  let padZeros := (64 + 55 - msg.length % 64) % 64
  msg ++ 0x80 :: List.replicate padZeros 0 ++ toBytesBE 8 (8 * msg.length)

/-- Split into 64-byte chunks. -/
def chunks64 (l : List Nat) : List (List Nat) :=
  if h : l = [] then [] else l.take 64 :: chunks64 (l.drop 64)
termination_by l.length
decreasing_by
  simp only [List.length_drop]
  have hl : 0 < l.length := List.length_pos.mpr h
  omega

/-- SHA-256 of a byte string, as a 32-byte string. -/
def sha256 (msg : List Nat) : List Nat :=
  let st := (chunks64 (sha256Pad msg)).foldl sha256Compress sha256Init
  toBytesBE 4 st.h0 ++ toBytesBE 4 st.h1 ++ toBytesBE 4 st.h2 ++
    toBytesBE 4 st.h3 ++ toBytesBE 4 st.h4 ++ toBytesBE 4 st.h5 ++
    toBytesBE 4 st.h6 ++ toBytesBE 4 st.h7

/-- Model of `sha256Sum` from `hash.go`: `sha256.Sum256(data)[:]`. -/
def sha256Sum (data : List Nat) : List Nat := sha256 data

theorem sha256_length (msg : List Nat) : (sha256 msg).length = 32 := by
  simp [sha256, toBytesBE_length]

/-! ## Data model of a `PreparedTransaction`

Mirrors the protobuf-generated Go types used by `hash.go`
(`interactive.PreparedTransaction`, `interactive.DamlTransaction`,
`transactionv1.Node`, `apiv2.Value`, …).  Nilable message pointers become
`Option`; `oneof` fields become inductives with an `unset` case matching the
Go type switches' `default` branches. -/

/-- Model of `apiv2.Identifier`. -/
structure Identifier where
  packageId : String
  moduleName : String
  entityName : String

/-- Model of `apiv2.Value`'s `Sum` oneof.  Nested messages that `hash.go` dereferences
unconditionally (`s.Optional`, `s.List`, `s.Record`, …) are collapsed into
their fields; nilable `*Value` payloads stay `Option Value`. -/
inductive Value where
  | vUnit : Value
  | vBool (b : Bool) : Value
  | vInt64 (i : Int) : Value
  | vNumeric (s : String) : Value
  | vTimestamp (i : Int) : Value
  | vDate (i : Int) : Value
  | vParty (s : String) : Value
  | vText (s : String) : Value
  | vContractId (s : String) : Value
  | vOptional (inner : Option Value) : Value
  | vList (elements : List (Option Value)) : Value
  | vTextMap (entries : List (String × Option Value)) : Value
  | vRecord (recordId : Option Identifier)
      (fields : List (String × Option Value)) : Value
  | vVariant (variantId : Option Identifier) (constructor : String)
      (value : Option Value) : Value
  | vEnum (enumId : Option Identifier) (constructor : String) : Value
  | vGenMap (entries : List (Option Value × Option Value)) : Value
  | vUnset : Value

/-- Model of `transactionv1.Create`. -/
structure CreateNode where
  lfVersion : String
  contractId : String
  packageName : String
  templateId : Option Identifier
  argument : Option Value
  signatories : List String
  stakeholders : List String

/-- Model of `transactionv1.Exercise`. -/
structure ExerciseNode where
  lfVersion : String
  contractId : String
  packageName : String
  templateId : Option Identifier
  signatories : List String
  stakeholders : List String
  actingParties : List String
  interfaceId : Option Identifier
  choiceId : String
  chosenValue : Option Value
  consuming : Bool
  exerciseResult : Option Value
  choiceObservers : List String
  children : List String

/-- Model of `transactionv1.Fetch`. -/
structure FetchNode where
  lfVersion : String
  contractId : String
  packageName : String
  templateId : Option Identifier
  signatories : List String
  stakeholders : List String
  interfaceId : Option Identifier
  actingParties : List String

/-- Model of `transactionv1.Rollback`. -/
structure RollbackNode where
  children : List String

/-- Model of `transactionv1.Node`'s `NodeType` oneof. -/
inductive NodeTypeV1 where
  | create (c : CreateNode)
  | exerciseBody (e : ExerciseNode)
  | fetch (f : FetchNode)
  | rollback (r : RollbackNode)
  | unset

/-- Model of `interactive.DamlTransaction_Node`: a node id plus the versioned body. -/
inductive VersionedNode where
  | v1 (n : NodeTypeV1)
  | unset

/-- Model of `interactive.DamlTransaction_Node`. -/
structure TxNode where
  nodeId : String
  versionedNode : VersionedNode

/-- Model of `interactive.DamlTransaction_NodeSeed`: `node_id: int32`, `seed: bytes`. -/
structure NodeSeed where
  nodeId : Int
  seed : List Nat

/-- Model of `interactive.DamlTransaction`. -/
structure DamlTransaction where
  version : String
  roots : List String
  nodes : List TxNode
  nodeSeeds : List NodeSeed

/-- Model of `interactive.Metadata_SubmitterInfo`. -/
structure SubmitterInfo where
  actAs : List String
  commandId : String

/-- Model of `interactive.Metadata_InputContract`: `created_at` plus the `Contract`
oneof, whose only variant is a v1 `Create`. -/
structure InputContract where
  createdAt : Int
  contract : Option CreateNode

/-- Model of `interactive.Metadata`. -/
structure Metadata where
  submitterInfo : Option SubmitterInfo
  transactionUuid : String
  mediatorGroup : Int
  synchronizerId : String
  minLedgerEffectiveTime : Option Int
  maxLedgerEffectiveTime : Option Int
  preparationTime : Int
  inputContracts : List InputContract

/-- Model of `interactive.PreparedTransaction`: both message fields are nilable. -/
structure PreparedTransaction where
  transaction : Option DamlTransaction
  metadata : Option Metadata

/-! ## Go map semantics

`buildNodesAndSeedsMap` inserts list entries into Go maps in order, so a
later entry with the same key overwrites an earlier one; lookups of missing
keys give the zero value.  `lookupLast` reproduces build-then-lookup. -/

/-- Lookup in an insertion-ordered association list where a later binding of
the same key overwrites an earlier one (Go map build semantics). -/
def lookupLast {α : Type} : List (String × α) → String → Option α
  | [], _ => none
  | (k, v) :: rest, key =>
    match lookupLast rest key with
    | some r => some r
    | none => if k = key then some v else none

/-- The `nodesMap` side of `buildNodesAndSeedsMap`, as its insertion list. -/
def nodesMapOf (damlTx : DamlTransaction) : List (String × TxNode) :=
  damlTx.nodes.map fun node => (node.nodeId, node)

/-- The `seedsMap` side of `buildNodesAndSeedsMap`: keys are
`fmt.Sprintf("%d", seed.NodeId)`. -/
def seedsMapOf (damlTx : DamlTransaction) : List (String × List Nat) :=
  damlTx.nodeSeeds.map fun seed => (toString seed.nodeId, seed.seed)

/-! ## Value and identifier encoding (`encodeValue`, `encodeIdentifier`) -/

/-- Model of `splitParts` from `hash.go`: an empty string yields the empty list, not
`[""]`. -/
def splitParts (s : String) : List String :=
  if s = "" then [] else s.splitOn "."

/-- Model of `encodeIdentifier` from `hash.go` (nil identifier encodes to nothing). -/
def encodeIdentifier (id : Option Identifier) : List Nat :=
  match id with
  | none => []
  | some id =>
    encodeString id.packageId ++
      encodeRepeated (splitParts id.moduleName) encodeString ++
      encodeRepeated (splitParts id.entityName) encodeString

mutual

/-- Model of `encodeValue` from `hash.go`; `none` is Go's nil `*apiv2.Value`, which
encodes to the empty byte string. -/
def encodeValue : Option Value → List Nat
  | none => []
  | some v => encodeValueSum v

/-- The `switch s := v.Sum.(type)` body of `encodeValue`.  The calls to
`encodeRepeated`/`encodeOptional` over nested values are inlined (length
word, then concatenated entries) so that the recursion is structural. -/
def encodeValueSum : Value → List Nat
  | .vUnit => [0x00]
  | .vBool b => 0x01 :: encodeBool b
  | .vInt64 i => 0x02 :: encodeInt64 i
  | .vNumeric s => 0x03 :: encodeString s
  | .vTimestamp i => 0x04 :: encodeInt64 i
  | .vDate i => 0x05 :: encodeInt32 i
  | .vParty s => 0x06 :: encodeString s
  | .vText s => 0x07 :: encodeString s
  | .vContractId s => 0x08 :: encodeHexString s
  | .vOptional inner =>
    0x09 :: (match inner with
      | none => [0x00]
      | some w => 0x01 :: encodeValueSum w)
  | .vList elements =>
    0x0a :: (encodeInt32 (Int.ofNat elements.length) ++
      encodeValueSeq elements)
  | .vTextMap entries =>
    0x0b :: (encodeInt32 (Int.ofNat entries.length) ++
      encodeTextMapEntries entries)
  | .vRecord recordId fields =>
    0x0c :: ((match recordId with
        | none => [0x00]
        | some rid => 0x01 :: encodeIdentifier (some rid)) ++
      (encodeInt32 (Int.ofNat fields.length) ++ encodeRecordFields fields))
  | .vVariant variantId ctor value =>
    0x0d :: ((match variantId with
        | none => [0x00]
        | some vid => 0x01 :: encodeIdentifier (some vid)) ++
      (encodeString ctor ++ encodeValue value))
  | .vEnum enumId ctor =>
    0x0e :: ((match enumId with
        | none => [0x00]
        | some eid => 0x01 :: encodeIdentifier (some eid)) ++
      encodeString ctor)
  | .vGenMap entries =>
    0x0f :: (encodeInt32 (Int.ofNat entries.length) ++
      encodeGenMapEntries entries)
  | .vUnset => []

/-- Concatenated `encodeValue` of list elements. -/
def encodeValueSeq : List (Option Value) → List Nat
  | [] => []
  | v :: rest => encodeValue v ++ encodeValueSeq rest

/-- Concatenated text-map entries: `encodeString(key) || encodeValue(value)`. -/
def encodeTextMapEntries : List (String × Option Value) → List Nat
  | [] => []
  | (k, v) :: rest => (encodeString k ++ encodeValue v) ++
      encodeTextMapEntries rest

/-- Concatenated record fields: label byte (`0x00`, or `0x01 || label`) then
the field value. -/
def encodeRecordFields : List (String × Option Value) → List Nat
  | [] => []
  | (label, v) :: rest =>
    ((if label = "" then [0x00] else 0x01 :: encodeString label) ++
      encodeValue v) ++ encodeRecordFields rest

/-- Concatenated gen-map entries: `encodeValue(key) || encodeValue(value)`. -/
def encodeGenMapEntries : List (Option Value × Option Value) → List Nat
  | [] => []
  | (k, v) :: rest => (encodeValue k ++ encodeValue v) ++
      encodeGenMapEntries rest

end

/-! ## Node encoding (`encodeNode` and friends)

The Go recursion over children ids is unbounded and diverges on cyclic
node references; here it is bounded by a `fuel` argument, decremented once
per child-hash step.  `none` models the recursion not terminating within
`fuel` steps.  On an acyclic transaction a fuel exceeding the number of
nodes is always enough, so the model agrees with Go wherever Go
terminates. -/

/-- Model of `encodeCreateNode` from `hash.go`.  The seed branch is Go's two-valued
map index `seed, ok := seedsMap[nodeID]`. -/
def encodeCreateNode (create : CreateNode) (nodeID : String)
    (seedsMap : List (String × List Nat)) : List Nat :=
  0x01 ::
    (encodeString create.lfVersion ++
      0x00 ::
        ((match lookupLast seedsMap nodeID with
          | some seed => 0x01 :: seed
          | none => [0x00]) ++
          (encodeHexString create.contractId ++
            encodeString create.packageName ++
            encodeIdentifier create.templateId ++
            encodeValue create.argument ++
            encodeRepeated create.signatories encodeString ++
            encodeRepeated create.stakeholders encodeString)))

/-- Model of `encodeFetchNode` from `hash.go`. -/
def encodeFetchNode (fetch : FetchNode) (nodeID : String) : List Nat :=
  0x01 ::
    (encodeString fetch.lfVersion ++
      0x02 ::
        (encodeHexString fetch.contractId ++
          encodeString fetch.packageName ++
          encodeIdentifier fetch.templateId ++
          encodeRepeated fetch.signatories encodeString ++
          encodeRepeated fetch.stakeholders encodeString ++
          encodeOptional fetch.interfaceId.isSome
            (fun _ => encodeIdentifier fetch.interfaceId) ++
          encodeRepeated fetch.actingParties encodeString))

mutual

/-- Model of `encodeNode` from `hash.go`: dispatch on the `VersionedNode` oneof. -/
def encodeNode (fuel : Nat) (node : TxNode) (nodesMap : List (String × TxNode))
    (seedsMap : List (String × List Nat)) : Option (List Nat) :=
  match node.versionedNode with
  | .v1 n => encodeNodeV1 fuel n node.nodeId nodesMap seedsMap
  | .unset => some []
termination_by (fuel, 4, 0)

/-- Model of `encodeNodeV1` from `hash.go`: dispatch on the `NodeType` oneof. -/
def encodeNodeV1 (fuel : Nat) (v1Node : NodeTypeV1) (nodeID : String)
    (nodesMap : List (String × TxNode)) (seedsMap : List (String × List Nat)) :
    Option (List Nat) :=
  match v1Node with
  | .create c => some (encodeCreateNode c nodeID seedsMap)
  | .exerciseBody e => encodeExerciseNode fuel e nodeID nodesMap seedsMap
  | .fetch f => some (encodeFetchNode f nodeID)
  | .rollback r => encodeRollbackNode fuel r nodeID nodesMap seedsMap
  | .unset => some []
termination_by (fuel, 3, 0)

/-- Model of `encodeExerciseNode` from `hash.go`.  `seedsMap[nodeID]` is Go's
one-valued map index, whose zero value for a missing key is the empty byte
slice: the seed is appended raw, with no length word and no presence
marker. -/
def encodeExerciseNode (fuel : Nat) (exercise : ExerciseNode)
    (nodeID : String) (nodesMap : List (String × TxNode))
    (seedsMap : List (String × List Nat)) : Option (List Nat) :=
  match encodeHashList fuel exercise.children nodesMap seedsMap with
  | none => none
  | some childHashes =>
    some (0x01 ::
      (encodeString exercise.lfVersion ++
        0x01 ::
          ((lookupLast seedsMap nodeID).getD [] ++
            (encodeHexString exercise.contractId ++
              encodeString exercise.packageName ++
              encodeIdentifier exercise.templateId ++
              encodeRepeated exercise.signatories encodeString ++
              encodeRepeated exercise.stakeholders encodeString ++
              encodeRepeated exercise.actingParties encodeString ++
              encodeOptional exercise.interfaceId.isSome
                (fun _ => encodeIdentifier exercise.interfaceId) ++
              encodeString exercise.choiceId ++
              encodeValue exercise.chosenValue ++
              encodeBool exercise.consuming ++
              encodeOptional exercise.exerciseResult.isSome
                (fun _ => encodeValue exercise.exerciseResult) ++
              encodeRepeated exercise.choiceObservers encodeString ++
              (encodeInt32 (Int.ofNat exercise.children.length) ++
                childHashes)))))
termination_by (fuel, 2, 0)

/-- Model of `encodeRollbackNode` from `hash.go`.  Note: no `encodeString(lfVersion)`
between the node-encoding byte and the `0x03` tag. -/
def encodeRollbackNode (fuel : Nat) (rollback : RollbackNode)
    (nodeID : String) (nodesMap : List (String × TxNode))
    (seedsMap : List (String × List Nat)) : Option (List Nat) :=
  match encodeHashList fuel rollback.children nodesMap seedsMap with
  | none => none
  | some childHashes =>
    some (0x01 :: 0x03 ::
      (encodeInt32 (Int.ofNat rollback.children.length) ++ childHashes))
termination_by (fuel, 2, 0)

/-- The closure shared by `encodeTransaction` roots and
`encodeExerciseNode`/`encodeRollbackNode` children: concatenated per-id
hashes (the repeated-count word is added by the caller). -/
def encodeHashList (fuel : Nat) (ids : List String)
    (nodesMap : List (String × TxNode)) (seedsMap : List (String × List Nat)) :
    Option (List Nat) :=
  match ids with
  | [] => some []
  | id :: rest =>
    match nodeHashOrZeros fuel id nodesMap seedsMap,
        encodeHashList fuel rest nodesMap seedsMap with
    | some hd, some tl => some (hd ++ tl)
    | _, _ => none
termination_by (fuel, 1, ids.length)

/-- One entry of the roots/children closure: `sha256Sum(encodeNode(node))`
when the id is in the nodes map, else 32 zero bytes. -/
def nodeHashOrZeros (fuel : Nat) (id : String)
    (nodesMap : List (String × TxNode)) (seedsMap : List (String × List Nat)) :
    Option (List Nat) :=
  match fuel with
  | 0 => none
  | fuel' + 1 =>
    match lookupLast nodesMap id with
    | some node => (encodeNode fuel' node nodesMap seedsMap).map sha256Sum
    | none => some (List.replicate 32 0)
termination_by (fuel, 0, 0)

end

/-! ## Transaction, metadata and the top-level hash -/

/-- Model of `encodeTransaction` from `hash.go`:
`encodeString(tx.Version) || encodeRepeated(tx.Roots, hash-or-zeros)`. -/
def encodeTransaction (fuel : Nat) (tx : DamlTransaction)
    (nodesMap : List (String × TxNode)) (seedsMap : List (String × List Nat)) :
    Option (List Nat) :=
  match encodeHashList fuel tx.roots nodesMap seedsMap with
  | none => none
  | some rootHashes =>
    some (encodeString tx.version ++
      (encodeInt32 (Int.ofNat tx.roots.length) ++ rootHashes))

/-- The four-byte `PreparedTransactionHashPurpose` constant `"\x00\x00\x00\x30"`. -/
def purposeBytes : List Nat := [0x00, 0x00, 0x00, 0x30]

/-- The `HashingSchemeVersionByte` constant `"\x02"`. -/
def schemeVersionBytes : List Nat := [0x02]

/-- Model of `hashTransaction` from `hash.go`: `SHA256(PURPOSE || encodeTransaction)`. -/
def hashTransaction (fuel : Nat) (tx : DamlTransaction)
    (nodesMap : List (String × TxNode)) (seedsMap : List (String × List Nat)) :
    Option (List Nat) :=
  (encodeTransaction fuel tx nodesMap seedsMap).map
    (fun encoded => sha256Sum (purposeBytes ++ encoded))

/-- Model of `encodeInputContract` from `hash.go`: the inner Create encoding always
uses the placeholder node id and an empty seeds map; an unset `Contract`
oneof falls through the type switch, hashing the empty byte string. -/
def encodeInputContract (contract : InputContract) : List Nat :=
  encodeInt64 contract.createdAt ++
    sha256Sum (match contract.contract with
      | some c => encodeCreateNode c "unused_node_id" []
      | none => [])

/-- Model of `encodeMetadata` from `hash.go`.  It dereferences
`metadata.SubmitterInfo` without a nil check on `metadata` itself, so it is
only defined for a present `Metadata` (the caller models the nil-pointer
panic).  The nodes/seeds maps are threaded through as in Go but unused by
`encodeInputContract`. -/
def encodeMetadata (metadata : Metadata) (_nodesMap : List (String × TxNode))
    (_seedsMap : List (String × List Nat)) : List Nat :=
  0x01 ::
    ((match metadata.submitterInfo with
      | some si => encodeRepeated si.actAs encodeString ++
          encodeString si.commandId
      | none => encodeInt32 0 ++ encodeString "") ++
      (encodeString metadata.transactionUuid ++
        encodeInt32 metadata.mediatorGroup ++
        encodeString metadata.synchronizerId ++
        encodeOptional metadata.minLedgerEffectiveTime.isSome
          (fun _ => encodeInt64 (metadata.minLedgerEffectiveTime.getD 0)) ++
        encodeOptional metadata.maxLedgerEffectiveTime.isSome
          (fun _ => encodeInt64 (metadata.maxLedgerEffectiveTime.getD 0)) ++
        encodeInt64 metadata.preparationTime ++
        encodeRepeated metadata.inputContracts encodeInputContract))

/-- Model of `hashMetadata` from `hash.go`: `SHA256(PURPOSE || encodeMetadata)`. -/
def hashMetadata (metadata : Metadata) (nodesMap : List (String × TxNode))
    (seedsMap : List (String × List Nat)) : List Nat :=
  sha256Sum (purposeBytes ++ encodeMetadata metadata nodesMap seedsMap)

/-- Observable outcome of running `HashPreparedTransaction`:
a returned hash, a returned Go error, a runtime panic (nil-pointer
dereference), or non-termination of the node recursion. -/
inductive GoOutcome where
  | ok (hash : List Nat)
  | goError (msg : String)
  | panicked
  | diverges
deriving DecidableEq

/-- Fuel that always suffices for an acyclic transaction: a terminating
chain of node lookups never revisits a map key, so its length is bounded by
the node count. -/
def initialFuel (tx : DamlTransaction) : Nat := tx.nodes.length + 1

/-- Model of `HashPreparedTransaction` from `hash.go`.  A nil argument returns the
error; a nil `Transaction` panics inside `encodeTransaction` (`tx.Version`),
a nil `Metadata` panics inside `encodeMetadata`
(`metadata.SubmitterInfo`), in Go's evaluation order. -/
def HashPreparedTransaction (tx : Option PreparedTransaction) : GoOutcome :=
  match tx with
  | none => .goError "prepared transaction is nil"
  | some tx =>
    match tx.transaction with
    | none => .panicked
    | some damlTx =>
      match hashTransaction (initialFuel damlTx) damlTx (nodesMapOf damlTx)
          (seedsMapOf damlTx) with
      | none => .diverges
      | some txHash =>
        match tx.metadata with
        | none => .panicked
        | some metadata =>
          .ok (sha256 (purposeBytes ++ schemeVersionBytes ++ txHash ++
            hashMetadata metadata (nodesMapOf damlTx) (seedsMapOf damlTx)))

/-! ## Canton crypto primitives (`pkg/canton/crypto.go`) -/

/-- Model of `ComputeHash` from `crypto.go`:
`0x12 || 0x20 || SHA256( BE32(purpose) || data )`. -/
def ComputeHash (data : List Nat) (purpose : Int) : List Nat :=
  0x12 :: 0x20 :: sha256 (toBytesBE 4 (uint32OfInt purpose) ++ data)

/-- Result of Go's `x509.ParsePKIXPublicKey` as `Fingerprint` consumes it:
an Ed25519 key with its raw key material, some other successfully parsed
key, or a parse failure.  The DER parser itself is Go standard-library
code, abstracted here as a parameter. -/
inductive SpkiParse where
  | ed25519Key (raw : List Nat)
  | otherKey
  | parseFailed

/-- The `keyData` selection inside `Fingerprint`: raw key material for a
parsed Ed25519 key, the input itself for other parsed keys and for parse
failures. -/
def fingerprintKeyData (parse : List Nat → SpkiParse) (data : List Nat) :
    List Nat :=
  match parse data with
  | .ed25519Key raw => raw
  | .otherKey => data
  | .parseFailed => data

/-- Model of `Fingerprint` from `crypto.go`: hex of `ComputeHash(keyData, 12)`,
parameterised by the SPKI parser. -/
def Fingerprint (parse : List Nat → SpkiParse) (data : List Nat) : String :=
  ⟨hexOfBytes (ComputeHash (fingerprintKeyData parse data) 12)⟩

/-! ## Protobuf wire model for `UntypedVersionedMessage`
(`data: bytes = 1; version: int32 = 2`), as used by the versioned-envelope
wrap step in `compressBytes` (`pkg/processor/processor.go`). -/

/-- Protobuf base-128 varint encoding of an unsigned value. -/
def varintEncode (n : Nat) : List Nat :=
  if h : n < 0x80 then [n] else (n % 0x80 + 0x80) :: varintEncode (n / 0x80)
termination_by n
decreasing_by
  exact Nat.div_lt_self (by omega) (by omega)

/-- Go `int32(v)` two's-complement value in `[-2^31, 2^31)`. -/
def int32Of (v : Int) : Int := (v + 2 ^ 31) % 2 ^ 32 - 2 ^ 31

/-- Model of `proto.Marshal` of a dynamic `UntypedVersionedMessage`: proto3 implicit
presence skips zero-valued fields; field 1 (`data`, wire type 2) then field
2 (`version`, varint of the sign-extended `int32`). -/
def serializeEnvelope (data : List Nat) (version : Int) : List Nat :=
  (if data = [] then [] else 0x0A :: (varintEncode data.length ++ data)) ++
    (if int32Of version = 0 then []
     else 0x10 :: varintEncode (uint64OfInt (int32Of version)))

/-- Model of `protowire`-style varint consumption: at most 10 bytes, the tenth
limited to one bit.  Returns the value and the remaining bytes. -/
def varintDecodeAux : List Nat → Nat → Nat → Option (Nat × List Nat)
  | [], _, _ => none
  | b :: rest, idx, acc =>
    if idx = 9 then
      if b ≤ 1 then some (acc + (b <<< 63), rest) else none
    else if b < 0x80 then some (acc + (b <<< (7 * idx)), rest)
    else varintDecodeAux rest (idx + 1) (acc + ((b - 0x80) <<< (7 * idx)))

/-- Varint at the head of a byte string. -/
def varintDecode (bs : List Nat) : Option (Nat × List Nat) :=
  varintDecodeAux bs 0 0

/-- Model of `proto.Unmarshal` of bytes as `UntypedVersionedMessage`, tracking the
`data` field (last instance wins; unknown fields, including groups, are
skipped; `groupStack` holds the field numbers of open groups, inside which
nothing is assigned).  Returns the final `data` value, or `none` on a wire
error.  `fuel` bounds the loop; every iteration consumes at least one byte,
so `length + 1` is always enough. -/
def parseEnvelopeLoop : Nat → List Nat → List Nat → List Nat →
    Option (List Nat)
  | 0, _, _, _ => none
  | _ + 1, [], dataAcc, groupStack =>
    if groupStack = [] then some dataAcc else none
  | fuel + 1, bs, dataAcc, groupStack =>
    match varintDecode bs with
    | none => none
    | some (tag, rest) =>
      let fieldNum := tag >>> 3
      let wireType := tag % 8
      if fieldNum = 0 then none
      else if wireType = 0 then
        match varintDecode rest with
        | none => none
        | some (_, rest2) => parseEnvelopeLoop fuel rest2 dataAcc groupStack
      else if wireType = 1 then
        if rest.length < 8 then none
        else parseEnvelopeLoop fuel (rest.drop 8) dataAcc groupStack
      else if wireType = 2 then
        match varintDecode rest with
        | none => none
        | some (len, rest2) =>
          if rest2.length < len then none
          else if fieldNum = 1 ∧ groupStack = [] then
            parseEnvelopeLoop fuel (rest2.drop len) (rest2.take len)
              groupStack
          else parseEnvelopeLoop fuel (rest2.drop len) dataAcc groupStack
      else if wireType = 3 then
        parseEnvelopeLoop fuel rest dataAcc (fieldNum :: groupStack)
      else if wireType = 4 then
        match groupStack with
        | g :: gs => if g = fieldNum then parseEnvelopeLoop fuel rest dataAcc gs
            else none
        | [] => none
      else if wireType = 5 then
        if rest.length < 4 then none
        else parseEnvelopeLoop fuel (rest.drop 4) dataAcc groupStack
      else none

/-- The envelope's `data` field after `proto.Unmarshal`, `none` on parse
failure.  The proto3 default for an absent `data` field is the empty byte
string. -/
def parseEnvelopeData (bs : List Nat) : Option (List Nat) :=
  parseEnvelopeLoop (bs.length + 1) bs [] []

/-- The versioned-wrap step of `compressBytes` (`m.Versioned` branch): if
the bytes already parse as the envelope with non-empty `data`, leave them
untouched; otherwise wrap them as `data` with the mapping's default
version. -/
def wrapVersioned (defaultVersion : Int) (binaryData : List Nat) : List Nat :=
  let alreadyWrapped :=
    match parseEnvelopeData binaryData with
    | some d => !d.isEmpty
    | none => false
  if alreadyWrapped then binaryData
  else serializeEnvelope binaryData defaultVersion

/-! ## Input-specifier reader (`pkg/io/io.go`, `ReadData`)

File-system and standard-input state, and the standard-library base64
decoders, are abstracted as parameters; payloads are modelled as Go byte
strings via `String`. -/

/-- The distinct failure kinds of `ReadData`. -/
inductive ReadError where
  | stdinFailed
  | fileFailed (path : String)
  | missingAtMark (input : String)
  | base64Failed
deriving DecidableEq

/-- The environment `ReadData` consults: stdin contents, file contents by
path (`none` = read error), and `os.Stat` results (`some isDir` when the
path exists). -/
structure ReadEnv where
  stdin : Option String
  fileContents : String → Option String
  statIsDir : String → Option Bool

/-- Character-list prefix test (Go `strings.HasPrefix`), written out so
that it evaluates by kernel reduction. -/
def charsLead : List Char → List Char → Bool
  | [], _ => true
  | _ :: _, [] => false
  | a :: as, b :: bs => a == b && charsLead as bs

/-- Go `strings.HasPrefix(s, pre)`. -/
def strLeads (pre s : String) : Bool := charsLead pre.data s.data

/-- The base64 codecs `ReadData` uses, abstracted: standard and URL-safe
strict decoding (`none` = decode error). -/
structure Base64Codec where
  stdDecode : String → Option String
  urlDecode : String → Option String

/-- Model of `ReadData` from `io.go` (the revision with the missing-`@` guard): `-`
reads stdin; `@path` reads a file; a literal that names an existing
non-directory file fails with the dedicated missing-`@` error; a
`base64:` mark or the heuristic (length over 16 or a trailing `=`)
triggers base64 decoding of literals; an explicit `isBase64` decodes the
raw bytes, trying the standard then the URL alphabet. -/
def ReadData (env : ReadEnv) (codec : Base64Codec) (input : String)
    (isBase64 : Bool) : Except ReadError String :=
  let decodeIfBase64 : String → Bool → Except ReadError String :=
    fun rawData b64 =>
      if b64 then
        match codec.stdDecode rawData with
        | some decoded => .ok decoded
        | none =>
          match codec.urlDecode rawData with
          | some decoded => .ok decoded
          | none => .error .base64Failed
      else .ok rawData
  if input = "-" then
    match env.stdin with
    | none => .error .stdinFailed
    | some rawData => decodeIfBase64 rawData isBase64
  else if strLeads "@" input then
    let path := (input.toSubstring.drop 1).toString
    match env.fileContents path with
    | none => .error (.fileFailed path)
    | some rawData => decodeIfBase64 rawData isBase64
  else if env.statIsDir input = some false then
    .error (.missingAtMark input)
  else
    let (input2, isBase64B) :=
      if strLeads "base64:" input then ((input.toSubstring.drop 7).toString, true)
      else (input, isBase64)
    if ¬isBase64B ∧ input2.length > 0 then
      match codec.stdDecode input2 with
      | some decoded =>
        if input2.length > 16 ∨ input2.endsWith "=" then .ok decoded
        else decodeIfBase64 input2 isBase64B
      | none => decodeIfBase64 input2 isBase64B
    else decodeIfBase64 input2 isBase64B

/-! ## JSON template generator (`pkg/template/template.go`)

Descriptors are modelled as finite trees (the acyclic case the generator's
recursion relies on); the parts of the `protoreflect` field interface that
`getSingleExampleValue`/`getExampleValue`/`GenerateJSONTemplate` consult
become structure fields. -/

/-- An enum value: declared name and wire number. -/
structure EnumValueDesc where
  name : String
  number : Int

/-- Generic JSON values produced by the generator. -/
inductive JsonValue where
  | str (s : String)
  | num (n : Int)
  | boolean (b : Bool)
  | null
  | arr (elements : List JsonValue)
  | obj (fields : List (String × JsonValue))

mutual

/-- A field descriptor: `Name()`, `IsList()`, `IsMap()`, `MapValue()` and
the kind with its referenced descriptor. -/
inductive FieldDesc where
  | mk (name : String) (isList : Bool) (isMap : Bool)
      (mapValue : Option FieldDesc) (kind : FieldKindDesc)

/-- Model of `fd.Kind()` together with the descriptor payload the generator reads:
`fd.Enum().Values()` for enums, `fd.Message()` for messages. -/
inductive FieldKindDesc where
  | stringKind
  | intKind
  | boolKind
  | enumKind (values : List EnumValueDesc)
  | messageKind (message : MessageDesc)
  | otherKind

/-- A message descriptor: its field descriptors in declaration order. -/
inductive MessageDesc where
  | mk (fields : List FieldDesc)

end

/-- Field accessors mirroring the `protoreflect` interface. -/
def FieldDesc.name : FieldDesc → String
  | .mk n _ _ _ _ => n

def FieldDesc.isList : FieldDesc → Bool
  | .mk _ l _ _ _ => l

def FieldDesc.isMap : FieldDesc → Bool
  | .mk _ _ m _ _ => m

def FieldDesc.mapValue : FieldDesc → Option FieldDesc
  | .mk _ _ _ mv _ => mv

def FieldDesc.kind : FieldDesc → FieldKindDesc
  | .mk _ _ _ _ k => k

def MessageDesc.fields : MessageDesc → List FieldDesc
  | .mk fs => fs

mutual

/-- Model of `GenerateJSONTemplate` from `template.go`: a map from declared field
names to example values (the descriptor is destructured for structural
termination). -/
def GenerateJSONTemplate : MessageDesc → JsonValue
  | .mk fields => .obj (genTemplateFields fields)
termination_by md => (sizeOf md, 2)

/-- The field loop of `GenerateJSONTemplate`. -/
def genTemplateFields : List FieldDesc → List (String × JsonValue)
  | [] => []
  | fd :: rest => (fd.name, getExampleValue fd) :: genTemplateFields rest
termination_by fs => (sizeOf fs, 2)

/-- Model of `getExampleValue` from `template.go`. -/
def getExampleValue : FieldDesc → JsonValue
  | .mk n isL isM mv k =>
    if isL then .arr [getSingleExampleValue (.mk n isL isM mv k)]
    else if isM then
      .obj [("key", match mv with
        | some mvd => getSingleExampleValue mvd
        | none => .null)]
    else getSingleExampleValue (.mk n isL isM mv k)
termination_by fd => (sizeOf fd, 1)

/-- Model of `getSingleExampleValue` from `template.go`.  For an enum kind the Go
code takes `fd.Enum().Values().Get(0)` — the value at declaration index 0,
not the value with number 0. -/
def getSingleExampleValue : FieldDesc → JsonValue
  | .mk _ _ _ _ k =>
    match k with
    | .stringKind => .str "example_string"
    | .intKind => .num 0
    | .boolKind => .boolean false
    | .enumKind values =>
      match values with
      | v :: _ => .str v.name
      | [] => .str "UNKNOWN"
    | .messageKind md => GenerateJSONTemplate md
    | .otherKind => .null
termination_by fd => (sizeOf fd, 0)

end

/-! ## Lemmas about Go map build-then-lookup semantics -/

theorem lookupLast_eq_none_iff {α : Type} (l : List (String × α)) (key : String) :
    lookupLast l key = none ↔ ∀ p ∈ l, p.1 ≠ key := by
  induction l with
  | nil => simp [lookupLast]
  | cons hd tl ih =>
    obtain ⟨k, v⟩ := hd
    simp only [lookupLast]
    constructor
    · intro h
      rcases htl : lookupLast tl key with _ | r
      · rw [htl] at h
        simp only at h
        intro p hp
        rcases List.mem_cons.mp hp with rfl | hmem
        · simp only []
          intro hk
          rw [if_pos hk] at h
          exact Option.noConfusion h
        · exact (ih.mp htl) p hmem
      · rw [htl] at h
        exact Option.noConfusion h
    · intro h
      have htl : lookupLast tl key = none := ih.mpr fun p hp => h p (List.mem_cons_of_mem _ hp)
      rw [htl]
      simp only []
      rw [if_neg (h (k, v) (List.mem_cons_self _ _))]

theorem lookupLast_mem {α : Type} (l : List (String × α)) (key : String) (v : α)
    (h : lookupLast l key = some v) : (key, v) ∈ l := by
  induction l with
  | nil => exact absurd h (by simp [lookupLast])
  | cons hd tl ih =>
    obtain ⟨k, w⟩ := hd
    simp only [lookupLast] at h
    rcases htl : lookupLast tl key with _ | r
    · rw [htl] at h
      simp only [] at h
      by_cases hk : k = key
      · rw [if_pos hk] at h
        cases h
        subst hk
        exact List.mem_cons_self _ _
      · rw [if_neg hk] at h
        exact Option.noConfusion h
    · rw [htl] at h
      cases h
      exact List.mem_cons_of_mem _ (ih htl)

theorem lookupLast_nodesMap {damlTx : DamlTransaction} {id : String} {node : TxNode}
    (h : lookupLast (nodesMapOf damlTx) id = some node) :
    node ∈ damlTx.nodes ∧ node.nodeId = id := by
  have hmem := lookupLast_mem _ _ _ h
  simp only [nodesMapOf, List.mem_map] at hmem
  obtain ⟨n, hn, heq⟩ := hmem
  cases heq
  exact ⟨hn, rfl⟩

theorem lookupLast_nodesMap_none {damlTx : DamlTransaction} {id : String}
    (h : ∀ n ∈ damlTx.nodes, n.nodeId ≠ id) :
    lookupLast (nodesMapOf damlTx) id = none := by
  rw [lookupLast_eq_none_iff]
  intro p hp
  simp only [nodesMapOf, List.mem_map] at hp
  obtain ⟨n, hn, rfl⟩ := hp
  exact h n hn

/-! ## Claims C2 and C3: node encoding headers and root/child entries -/

/-- C2: a Rollback node encodes to exactly the node-encoding byte `0x01`,
then the variant tag `0x03`, then `encode_repeated` of the children hashes,
with no `encode_string(lf_version)` in between; Create, Exercise and Fetch
encodings all begin `0x01 || encode_string(lf_version) || tag` with tags
`0x00`, `0x01`, `0x02` respectively. -/
theorem rollback_omits_lf_version (fuel : Nat) (c : CreateNode)
    (e : ExerciseNode) (f : FetchNode) (r : RollbackNode) (nodeID : String)
    (nodesMap : List (String × TxNode)) (seedsMap : List (String × List Nat)) :
    encodeRollbackNode fuel r nodeID nodesMap seedsMap =
      (encodeHashList fuel r.children nodesMap seedsMap).map
        (fun childHashes => 0x01 :: 0x03 ::
          (encodeInt32 (Int.ofNat r.children.length) ++ childHashes)) ∧
    (∃ rest, encodeCreateNode c nodeID seedsMap =
      0x01 :: (encodeString c.lfVersion ++ 0x00 :: rest)) ∧
    (∃ g : List Nat → List Nat,
      encodeExerciseNode fuel e nodeID nodesMap seedsMap =
        (encodeHashList fuel e.children nodesMap seedsMap).map
          (fun childHashes =>
            0x01 :: (encodeString e.lfVersion ++ 0x01 :: g childHashes))) ∧
    (∃ rest, encodeFetchNode f nodeID =
      0x01 :: (encodeString f.lfVersion ++ 0x02 :: rest)) := by
  refine ⟨?_, ⟨_, rfl⟩, ⟨?_, ?_⟩, ⟨_, rfl⟩⟩
  · cases h : encodeHashList fuel r.children nodesMap seedsMap with
    | none => simp [encodeRollbackNode, h]
    | some childHashes => simp [encodeRollbackNode, h]
  · exact fun childHashes =>
      (lookupLast seedsMap nodeID).getD [] ++
        (encodeHexString e.contractId ++ encodeString e.packageName ++
          encodeIdentifier e.templateId ++
          encodeRepeated e.signatories encodeString ++
          encodeRepeated e.stakeholders encodeString ++
          encodeRepeated e.actingParties encodeString ++
          encodeOptional e.interfaceId.isSome
            (fun _ => encodeIdentifier e.interfaceId) ++
          encodeString e.choiceId ++ encodeValue e.chosenValue ++
          encodeBool e.consuming ++
          encodeOptional e.exerciseResult.isSome
            (fun _ => encodeValue e.exerciseResult) ++
          encodeRepeated e.choiceObservers encodeString ++
          (encodeInt32 (Int.ofNat e.children.length) ++ childHashes))
  · cases h : encodeHashList fuel e.children nodesMap seedsMap with
    | none => simp [encodeExerciseNode, h]
    | some childHashes => simp [encodeExerciseNode, h]

/-- C3: an entry of the encoded roots list (and of an Exercise or Rollback
node's children list, all built from the same `nodeHashOrZeros` step) is the
SHA-256 of the encoding of the node whose `node_id` equals the id whenever
such a node exists among the transaction's nodes, and exactly 32 zero bytes
when no node carries that id; the roots list of `encodeTransaction` and any
id list under `encodeHashList` are built entry-wise from that step. -/
theorem root_entry_hash_or_zeros (damlTx : DamlTransaction)
    (seedsMap : List (String × List Nat)) (fuel : Nat) (id : String) :
    ((∀ n ∈ damlTx.nodes, n.nodeId ≠ id) →
      nodeHashOrZeros (fuel + 1) id (nodesMapOf damlTx) seedsMap =
        some (List.replicate 32 0)) ∧
    ((∃ n ∈ damlTx.nodes, n.nodeId = id) →
      ∃ node ∈ damlTx.nodes, node.nodeId = id ∧
        nodeHashOrZeros (fuel + 1) id (nodesMapOf damlTx) seedsMap =
          (encodeNode fuel node (nodesMapOf damlTx) seedsMap).map sha256Sum) ∧
    (encodeTransaction (fuel + 1) damlTx (nodesMapOf damlTx) seedsMap =
      (encodeHashList (fuel + 1) damlTx.roots (nodesMapOf damlTx)
          seedsMap).map
        (fun rootHashes => encodeString damlTx.version ++
          (encodeInt32 (Int.ofNat damlTx.roots.length) ++ rootHashes))) ∧
    (∀ ids : List String,
      encodeHashList (fuel + 1) (id :: ids) (nodesMapOf damlTx) seedsMap =
        (nodeHashOrZeros (fuel + 1) id (nodesMapOf damlTx) seedsMap).bind
          (fun hd => (encodeHashList (fuel + 1) ids (nodesMapOf damlTx)
            seedsMap).map (fun tl => hd ++ tl))) := by
  refine ⟨?_, ?_, ?_, ?_⟩
  · intro h
    simp [nodeHashOrZeros, lookupLast_nodesMap_none h]
  · rintro ⟨n, hn, hid⟩
    cases hl : lookupLast (nodesMapOf damlTx) id with
    | none =>
      exfalso
      have hpmem : (n.nodeId, n) ∈ nodesMapOf damlTx := by
        simp only [nodesMapOf, List.mem_map]
        exact ⟨n, hn, rfl⟩
      exact (lookupLast_eq_none_iff _ _).mp hl (n.nodeId, n) hpmem hid
    | some node =>
      obtain ⟨hmem, hnid⟩ := lookupLast_nodesMap hl
      exact ⟨node, hmem, hnid, by simp [nodeHashOrZeros, hl]⟩
  · cases h : encodeHashList (fuel + 1) damlTx.roots (nodesMapOf damlTx)
        seedsMap with
    | none => simp [encodeTransaction, h]
    | some rootHashes => simp [encodeTransaction, h]
  · intro ids
    cases h1 : nodeHashOrZeros (fuel + 1) id (nodesMapOf damlTx) seedsMap with
    | none => simp [encodeHashList, h1]
    | some hd =>
      cases h2 : encodeHashList (fuel + 1) ids (nodesMapOf damlTx) seedsMap
          with
      | none => simp [encodeHashList, h1, h2]
      | some tl => simp [encodeHashList, h1, h2]

/-- A one-node transaction used to instantiate the root-entry theorem. -/
def c3Node : TxNode := ⟨"0", .unset⟩

/-- Its enclosing transaction (the shape of the repository's own
determinism test). -/
def c3Tx : DamlTransaction := ⟨"1", ["0"], [c3Node], []⟩

/-- Witness: the root-entry dichotomy evaluated on a concrete one-node
transaction, for a missing id and for the present id `"0"`. -/
theorem root_entry_hash_or_zeros_witness :
    nodeHashOrZeros (0 + 1) "missing" (nodesMapOf c3Tx) [] =
      some (List.replicate 32 0) ∧
    ∃ node ∈ c3Tx.nodes, node.nodeId = "0" ∧
      nodeHashOrZeros (0 + 1) "0" (nodesMapOf c3Tx) [] =
        (encodeNode 0 node (nodesMapOf c3Tx) []).map sha256Sum :=
  ⟨(root_entry_hash_or_zeros c3Tx [] 0 "missing").1
      (by intro n hn; simp [c3Tx, c3Node] at hn; subst hn; simp [c3Node]),
    (root_entry_hash_or_zeros c3Tx [] 0 "0").2.1
      ⟨c3Node, by simp [c3Tx], rfl⟩⟩

/-! ## Claim C1: the top-level hash composition -/

/-- C1: for a non-nil `PreparedTransaction` (with its transaction and
metadata present and a terminating node recursion), the returned hash is
`SHA256(PURPOSE || SCHEME_VERSION || tx_hash || meta_hash)` with
`tx_hash = SHA256(PURPOSE || encode_tx)`,
`meta_hash = SHA256(PURPOSE || encode_meta)`, and
`encode_tx = encode_string(version) || encode_repeated(root hashes)`. -/
theorem hashPreparedTransaction_structure (tx : PreparedTransaction)
    (damlTx : DamlTransaction) (metadata : Metadata) (enc : List Nat)
    (htx : tx.transaction = some damlTx)
    (hmeta : tx.metadata = some metadata)
    (henc : encodeTransaction (initialFuel damlTx) damlTx (nodesMapOf damlTx)
      (seedsMapOf damlTx) = some enc) :
    HashPreparedTransaction (some tx) =
      .ok (sha256 (purposeBytes ++ schemeVersionBytes ++
        sha256 (purposeBytes ++ enc) ++
        sha256 (purposeBytes ++
          encodeMetadata metadata (nodesMapOf damlTx) (seedsMapOf damlTx)))) ∧
    ∃ rootHashes,
      encodeHashList (initialFuel damlTx) damlTx.roots (nodesMapOf damlTx)
          (seedsMapOf damlTx) = some rootHashes ∧
      enc = encodeString damlTx.version ++
        (encodeInt32 (Int.ofNat damlTx.roots.length) ++ rootHashes) := by
  constructor
  · simp [HashPreparedTransaction, htx, hmeta, hashTransaction, henc,
      hashMetadata, sha256Sum]
  · rcases hroots : encodeHashList (initialFuel damlTx) damlTx.roots
        (nodesMapOf damlTx) (seedsMapOf damlTx) with _ | rootHashes
    · rw [encodeTransaction, hroots] at henc
      exact Option.noConfusion henc
    · rw [encodeTransaction, hroots] at henc
      exact ⟨rootHashes, rfl, (Option.some_inj.mp henc).symm⟩

/-- The metadata of the repository's determinism test. -/
def c1Meta : Metadata :=
  ⟨some ⟨["party1"], "cmd1"⟩, "uuid1", 0, "sync1", none, none, 0, []⟩

/-- A `PreparedTransaction` with present transaction and metadata. -/
def c1PT : PreparedTransaction := ⟨some c3Tx, some c1Meta⟩

/-- The root-hash list of `c3Tx` (one root, node present, unset body). -/
def c1RootHashes : List Nat := sha256Sum [] ++ []

/-- The transaction encoding of `c3Tx`. -/
def c1Enc : List Nat :=
  encodeString "1" ++ (encodeInt32 (Int.ofNat 1) ++ c1RootHashes)

/-- Witness: the hash-composition theorem applied to a concrete prepared
transaction, with all hypotheses discharged by evaluation. -/
theorem hashPreparedTransaction_structure_witness :
    HashPreparedTransaction (some c1PT) =
      .ok (sha256 (purposeBytes ++ schemeVersionBytes ++
        sha256 (purposeBytes ++ c1Enc) ++
        sha256 (purposeBytes ++
          encodeMetadata c1Meta (nodesMapOf c3Tx) (seedsMapOf c3Tx)))) ∧
    ∃ rootHashes,
      encodeHashList (initialFuel c3Tx) c3Tx.roots (nodesMapOf c3Tx)
          (seedsMapOf c3Tx) = some rootHashes ∧
      c1Enc = encodeString c3Tx.version ++
        (encodeInt32 (Int.ofNat c3Tx.roots.length) ++ rootHashes) :=
  hashPreparedTransaction_structure c1PT c3Tx c1Meta c1Enc rfl rfl
    (by simp [c1Enc, c1RootHashes, initialFuel, c3Tx, c3Node, nodesMapOf,
      seedsMapOf, encodeTransaction, encodeHashList, nodeHashOrZeros,
      lookupLast, encodeNode])

/-! ## Claim C7: nil metadata panics -/

/-- C7 (failing input): hashing a `PreparedTransaction` whose metadata is
absent panics (nil-pointer dereference of `metadata.SubmitterInfo` in
`encodeMetadata`) instead of returning a structured error. -/
theorem nil_metadata_panics :
    HashPreparedTransaction (some ⟨some ⟨"", [], [], []⟩, none⟩) =
      .panicked := by
  simp [HashPreparedTransaction, hashTransaction, encodeTransaction,
    encodeHashList, initialFuel, nodesMapOf, seedsMapOf]

/-! ## Claim C9: missing seed entry versus zero-length seed entry -/

theorem lookupLast_append_single {α : Type} (l : List (String × α))
    (key k : String) (v : α) :
    lookupLast (l ++ [(key, v)]) k =
      if key = k then some v else lookupLast l k := by
  induction l with
  | nil => simp [lookupLast]
  | cons hd tl ih =>
    obtain ⟨k1, v1⟩ := hd
    have step : lookupLast (((k1, v1) :: tl) ++ [(key, v)]) k =
        match lookupLast (tl ++ [(key, v)]) k with
        | some r => some r
        | none => if k1 = k then some v1 else none := rfl
    rw [step, ih, lookupLast]
    by_cases hk : key = k
    · rw [if_pos hk, if_pos hk]
    · rw [if_neg hk, if_neg hk]

/-- Appending a seed entry for a key a Create node does not use leaves the
Create encoding unchanged. -/
theorem encodeCreateNode_seedAppend (c : CreateNode) (nodeID : String)
    (sm : List (String × List Nat)) (key : String) (seed : List Nat)
    (hne : nodeID ≠ key) :
    encodeCreateNode c nodeID (sm ++ [(key, seed)]) =
      encodeCreateNode c nodeID sm := by
  simp only [encodeCreateNode, lookupLast_append_single]
  rw [if_neg (fun h => hne h.symm)]

mutual

theorem encodeNode_seedAppend (fuel : Nat) (node : TxNode)
    (nm : List (String × TxNode)) (sm : List (String × List Nat))
    (key : String) (hmiss : lookupLast sm key = none)
    (hnm : ∀ s nd, lookupLast nm s = some nd →
      ∀ c, nd.versionedNode = .v1 (.create c) → nd.nodeId ≠ key)
    (hnode : ∀ c, node.versionedNode = .v1 (.create c) → node.nodeId ≠ key) :
    encodeNode fuel node nm (sm ++ [(key, [])]) = encodeNode fuel node nm sm := by
  cases hvn : node.versionedNode with
  | v1 n =>
    rw [encodeNode, encodeNode, hvn]
    exact encodeNodeV1_seedAppend fuel n node.nodeId nm sm key hmiss hnm
      (fun c hc => hnode c (by rw [hvn, hc]))
  | unset => rw [encodeNode, encodeNode, hvn]
termination_by (fuel, 4, 0)

theorem encodeNodeV1_seedAppend (fuel : Nat) (v1Node : NodeTypeV1)
    (nodeID : String) (nm : List (String × TxNode))
    (sm : List (String × List Nat)) (key : String)
    (hmiss : lookupLast sm key = none)
    (hnm : ∀ s nd, lookupLast nm s = some nd →
      ∀ c, nd.versionedNode = .v1 (.create c) → nd.nodeId ≠ key)
    (hcreate : ∀ c, v1Node = NodeTypeV1.create c → nodeID ≠ key) :
    encodeNodeV1 fuel v1Node nodeID nm (sm ++ [(key, [])]) =
      encodeNodeV1 fuel v1Node nodeID nm sm := by
  cases v1Node with
  | create c =>
    rw [encodeNodeV1, encodeNodeV1]
    rw [encodeCreateNode_seedAppend c nodeID sm key [] (hcreate c rfl)]
  | exerciseBody e =>
    rw [encodeNodeV1, encodeNodeV1]
    exact encodeExerciseNode_seedAppend fuel e nodeID nm sm key hmiss hnm
  | fetch f => rw [encodeNodeV1, encodeNodeV1]
  | rollback r =>
    rw [encodeNodeV1, encodeNodeV1]
    exact encodeRollbackNode_seedAppend fuel r nodeID nm sm key hmiss hnm
  | unset => rw [encodeNodeV1, encodeNodeV1]
termination_by (fuel, 3, 0)

theorem encodeExerciseNode_seedAppend (fuel : Nat) (e : ExerciseNode)
    (nodeID : String) (nm : List (String × TxNode))
    (sm : List (String × List Nat)) (key : String)
    (hmiss : lookupLast sm key = none)
    (hnm : ∀ s nd, lookupLast nm s = some nd →
      ∀ c, nd.versionedNode = .v1 (.create c) → nd.nodeId ≠ key) :
    encodeExerciseNode fuel e nodeID nm (sm ++ [(key, [])]) =
      encodeExerciseNode fuel e nodeID nm sm := by
  have hch := encodeHashList_seedAppend fuel e.children nm sm key hmiss hnm
  have hseed : (lookupLast (sm ++ [(key, [])]) nodeID).getD [] =
      (lookupLast sm nodeID).getD [] := by
    rw [lookupLast_append_single]
    by_cases h : key = nodeID
    · rw [if_pos h, ← h, hmiss]
      rfl
    · rw [if_neg h]
  cases h : encodeHashList fuel e.children nm sm with
  | none => rw [encodeExerciseNode, encodeExerciseNode, h, hch.trans h]
  | some ch =>
    rw [encodeExerciseNode, encodeExerciseNode, h, hch.trans h]
    simp only [hseed]
termination_by (fuel, 2, 0)

theorem encodeRollbackNode_seedAppend (fuel : Nat) (r : RollbackNode)
    (nodeID : String) (nm : List (String × TxNode))
    (sm : List (String × List Nat)) (key : String)
    (hmiss : lookupLast sm key = none)
    (hnm : ∀ s nd, lookupLast nm s = some nd →
      ∀ c, nd.versionedNode = .v1 (.create c) → nd.nodeId ≠ key) :
    encodeRollbackNode fuel r nodeID nm (sm ++ [(key, [])]) =
      encodeRollbackNode fuel r nodeID nm sm := by
  have hch := encodeHashList_seedAppend fuel r.children nm sm key hmiss hnm
  cases h : encodeHashList fuel r.children nm sm with
  | none => rw [encodeRollbackNode, encodeRollbackNode, h, hch.trans h]
  | some ch => rw [encodeRollbackNode, encodeRollbackNode, h, hch.trans h]
termination_by (fuel, 2, 0)

theorem encodeHashList_seedAppend (fuel : Nat) (ids : List String)
    (nm : List (String × TxNode)) (sm : List (String × List Nat))
    (key : String) (hmiss : lookupLast sm key = none)
    (hnm : ∀ s nd, lookupLast nm s = some nd →
      ∀ c, nd.versionedNode = .v1 (.create c) → nd.nodeId ≠ key) :
    encodeHashList fuel ids nm (sm ++ [(key, [])]) =
      encodeHashList fuel ids nm sm := by
  cases ids with
  | nil => rw [encodeHashList, encodeHashList]
  | cons id rest =>
    have h1 := nodeHashOrZeros_seedAppend fuel id nm sm key hmiss hnm
    have h2 := encodeHashList_seedAppend fuel rest nm sm key hmiss hnm
    rw [encodeHashList, encodeHashList, h1, h2]
termination_by (fuel, 1, ids.length)

theorem nodeHashOrZeros_seedAppend (fuel : Nat) (id : String)
    (nm : List (String × TxNode)) (sm : List (String × List Nat))
    (key : String) (hmiss : lookupLast sm key = none)
    (hnm : ∀ s nd, lookupLast nm s = some nd →
      ∀ c, nd.versionedNode = .v1 (.create c) → nd.nodeId ≠ key) :
    nodeHashOrZeros fuel id nm (sm ++ [(key, [])]) =
      nodeHashOrZeros fuel id nm sm := by
  cases fuel with
  | zero => rw [nodeHashOrZeros, nodeHashOrZeros]
  | succ fuel' =>
    cases hl : lookupLast nm id with
    | none => rw [nodeHashOrZeros, nodeHashOrZeros, hl]
    | some node =>
      have hrec := encodeNode_seedAppend fuel' node nm sm key hmiss hnm
        (hnm id node hl)
      rw [nodeHashOrZeros, nodeHashOrZeros, hl]
      show (encodeNode fuel' node nm (sm ++ [(key, [])])).map sha256Sum =
        (encodeNode fuel' node nm sm).map sha256Sum
      rw [hrec]
termination_by (fuel, 0, 0)

end

/-- The same transaction with a zero-length seed entry appended for node id
`nid`. -/
def withEmptySeed (tx : DamlTransaction) (nid : Int) : DamlTransaction :=
  ⟨tx.version, tx.roots, tx.nodes, tx.nodeSeeds ++ [⟨nid, []⟩]⟩

theorem hashTransaction_seedAppend (fuel : Nat) (tx : DamlTransaction)
    (nm : List (String × TxNode)) (sm : List (String × List Nat))
    (key : String) (hmiss : lookupLast sm key = none)
    (hnm : ∀ s nd, lookupLast nm s = some nd →
      ∀ c, nd.versionedNode = .v1 (.create c) → nd.nodeId ≠ key) :
    hashTransaction fuel tx nm (sm ++ [(key, [])]) =
      hashTransaction fuel tx nm sm := by
  have hhl := encodeHashList_seedAppend fuel tx.roots nm sm key hmiss hnm
  cases h : encodeHashList fuel tx.roots nm sm with
  | none => simp [hashTransaction, encodeTransaction, h, hhl.trans h]
  | some rh => simp [hashTransaction, encodeTransaction, h, hhl.trans h]

/-- C9: an Exercise node's seed is appended raw (Go's one-valued map index,
whose zero value is the empty slice), so an Exercise whose node id has no
seed entry encodes to exactly the bytes of the same node with a
zero-length seed entry, and the whole prepared transaction hashes
identically — provided no Create node (whose encoding has a seed presence
marker) carries that node id. -/
theorem exercise_missing_seed_eq_empty_seed (damlTx : DamlTransaction)
    (metadata : Metadata) (nid : Int)
    (hmiss : lookupLast (seedsMapOf damlTx) (toString nid) = none)
    (hcreate : ∀ n ∈ damlTx.nodes, ∀ c,
      n.versionedNode = .v1 (.create c) → n.nodeId ≠ toString nid) :
    (∀ fuel (e : ExerciseNode),
      encodeExerciseNode fuel e (toString nid) (nodesMapOf damlTx)
          (seedsMapOf damlTx ++ [(toString nid, [])]) =
        encodeExerciseNode fuel e (toString nid) (nodesMapOf damlTx)
          (seedsMapOf damlTx)) ∧
    seedsMapOf (withEmptySeed damlTx nid) =
      seedsMapOf damlTx ++ [(toString nid, [])] ∧
    HashPreparedTransaction
        (some ⟨some (withEmptySeed damlTx nid), some metadata⟩) =
      HashPreparedTransaction (some ⟨some damlTx, some metadata⟩) := by
  have hnm : ∀ s nd, lookupLast (nodesMapOf damlTx) s = some nd →
      ∀ c, nd.versionedNode = .v1 (.create c) → nd.nodeId ≠ toString nid := by
    intro s nd hl c hc
    obtain ⟨hmem, _⟩ := lookupLast_nodesMap hl
    exact hcreate nd hmem c hc
  have h3 : seedsMapOf (withEmptySeed damlTx nid) =
      seedsMapOf damlTx ++ [(toString nid, [])] := by
    simp [seedsMapOf, withEmptySeed]
  refine ⟨fun fuel e =>
    encodeExerciseNode_seedAppend fuel e _ _ _ _ hmiss hnm, h3, ?_⟩
  have h1 : initialFuel (withEmptySeed damlTx nid) = initialFuel damlTx := rfl
  have h2 : nodesMapOf (withEmptySeed damlTx nid) = nodesMapOf damlTx := rfl
  have h4 : hashTransaction (initialFuel damlTx) (withEmptySeed damlTx nid)
      (nodesMapOf damlTx) (seedsMapOf damlTx ++ [(toString nid, [])]) =
      hashTransaction (initialFuel damlTx) damlTx (nodesMapOf damlTx)
        (seedsMapOf damlTx) :=
    hashTransaction_seedAppend (initialFuel damlTx) (withEmptySeed damlTx nid)
      (nodesMapOf damlTx) (seedsMapOf damlTx) (toString nid) hmiss hnm
  have h5 : hashMetadata metadata (nodesMapOf damlTx)
      (seedsMapOf damlTx ++ [(toString nid, [])]) =
      hashMetadata metadata (nodesMapOf damlTx) (seedsMapOf damlTx) := rfl
  simp only [HashPreparedTransaction, h1, h2, h3, h4, h5]

/-- A minimal transaction holding one Exercise node with no seed entry. -/
def c9Ex : ExerciseNode :=
  ⟨"lf", "", "pkg", none, [], [], [], none, "choice", none, true, none, [],
    []⟩

/-- The node wrapping `c9Ex` under id `"0"`. -/
def c9Node : TxNode := ⟨"0", .v1 (.exerciseBody c9Ex)⟩

/-- Its transaction: one root, one node, no seeds. -/
def c9Tx : DamlTransaction := ⟨"1", ["0"], [c9Node], []⟩

/-- Minimal metadata for the C9 witness. -/
def c9Meta : Metadata := ⟨none, "u", 0, "s", none, none, 0, []⟩

/-- Witness: the missing-seed/empty-seed equivalence evaluated on a
one-Exercise transaction. -/
theorem exercise_missing_seed_eq_empty_seed_witness :
    (∀ fuel (e : ExerciseNode),
      encodeExerciseNode fuel e (toString (0 : Int)) (nodesMapOf c9Tx)
          (seedsMapOf c9Tx ++ [(toString (0 : Int), [])]) =
        encodeExerciseNode fuel e (toString (0 : Int)) (nodesMapOf c9Tx)
          (seedsMapOf c9Tx)) ∧
    seedsMapOf (withEmptySeed c9Tx 0) =
      seedsMapOf c9Tx ++ [(toString (0 : Int), [])] ∧
    HashPreparedTransaction
        (some ⟨some (withEmptySeed c9Tx 0), some c9Meta⟩) =
      HashPreparedTransaction (some ⟨some c9Tx, some c9Meta⟩) :=
  exercise_missing_seed_eq_empty_seed c9Tx c9Meta 0
    (by simp [seedsMapOf, c9Tx, lookupLast])
    (by simp [c9Tx, c9Node])

/-! ## Claim C10: malformed hex never fails the hash -/

/-- C10: `encodeHexString` drops the hex-decode error, length-prefixing only
the bytes decoded before the first invalid character, so a malformed
contract id (such as the non-hex `"zz"`) encodes like the empty string and
`HashPreparedTransaction` still returns a hash (it returns an error only
for a nil argument, never for malformed hex). -/
theorem hashing_tolerates_bad_hex (s : String) (tx : PreparedTransaction)
    (damlTx : DamlTransaction) (metadata : Metadata)
    (htx : tx.transaction = some damlTx)
    (hmeta : tx.metadata = some metadata)
    (hterm : encodeTransaction (initialFuel damlTx) damlTx (nodesMapOf damlTx)
      (seedsMapOf damlTx) ≠ none) :
    encodeHexString s = encodeBytes (hexDecodeDroppingErr s.data) ∧
    encodeHexString "zz" = encodeHexString "" ∧
    ∃ h, HashPreparedTransaction (some tx) = .ok h := by
  refine ⟨rfl, rfl, ?_⟩
  cases henc : encodeTransaction (initialFuel damlTx) damlTx
      (nodesMapOf damlTx) (seedsMapOf damlTx) with
  | none => exact absurd henc hterm
  | some enc =>
    refine ⟨sha256 (purposeBytes ++ (schemeVersionBytes ++
      (sha256Sum (purposeBytes ++ enc) ++
        hashMetadata metadata (nodesMapOf damlTx) (seedsMapOf damlTx)))), ?_⟩
    simp [HashPreparedTransaction, htx, hmeta, hashTransaction, henc]

/-- A Create node whose contract id is not valid hex. -/
def c10Create : CreateNode := ⟨"lf", "zz", "pkg", none, none, [], []⟩

/-- The node wrapping `c10Create`. -/
def c10Node : TxNode := ⟨"0", .v1 (.create c10Create)⟩

/-- A transaction containing the bad-hex Create node. -/
def c10Tx : DamlTransaction := ⟨"1", ["0"], [c10Node], []⟩

/-- Minimal metadata for the C10 witness. -/
def c10Meta : Metadata := ⟨none, "u", 0, "s", none, none, 0, []⟩

/-- Witness: hashing a concrete transaction whose Create node has the
non-hex contract id `"zz"` still returns a hash. -/
theorem hashing_tolerates_bad_hex_witness :
    encodeHexString "zz" = encodeHexString "" ∧
    ∃ h, HashPreparedTransaction (some ⟨some c10Tx, some c10Meta⟩) =
      .ok h :=
  ⟨(hashing_tolerates_bad_hex "zz" ⟨some c10Tx, some c10Meta⟩ c10Tx c10Meta
      rfl rfl (by simp [encodeTransaction, encodeHashList, nodeHashOrZeros,
        encodeNode, encodeNodeV1, initialFuel, nodesMapOf, seedsMapOf,
        c10Tx, c10Node, lookupLast])).2.1,
    (hashing_tolerates_bad_hex "zz" ⟨some c10Tx, some c10Meta⟩ c10Tx c10Meta
      rfl rfl (by simp [encodeTransaction, encodeHashList, nodeHashOrZeros,
        encodeNode, encodeNodeV1, initialFuel, nodesMapOf, seedsMapOf,
        c10Tx, c10Node, lookupLast])).2.2⟩

/-! ## Claim C4: fingerprint shape -/

/-- C4: `Fingerprint(k)` is the lowercase hex of
`0x12 || 0x20 || SHA256(BE32(12) || keyData)`, where `keyData` is the raw
key material when the input parses as an Ed25519 SubjectPublicKeyInfo and
the input itself otherwise; it is always 68 hex characters and begins with
`"1220"`. -/
theorem fingerprint_shape (parse : List Nat → SpkiParse) (k : List Nat) :
    Fingerprint parse k =
      ⟨hexOfBytes (0x12 :: 0x20 ::
        sha256 (toBytesBE 4 (uint32OfInt 12) ++ fingerprintKeyData parse k))⟩ ∧
    fingerprintKeyData parse k =
      (match parse k with
      | .ed25519Key raw => raw
      | .otherKey => k
      | .parseFailed => k) ∧
    (Fingerprint parse k).length = 68 ∧
    (Fingerprint parse k).data.take 4 = ['1', '2', '2', '0'] := by
  refine ⟨rfl, rfl, ?_, ?_⟩
  · show (hexOfBytes (ComputeHash (fingerprintKeyData parse k) 12)).length = 68
    rw [hexOfBytes_length]
    simp [ComputeHash, sha256_length]
  · show (hexOfBytes (ComputeHash (fingerprintKeyData parse k) 12)).take 4 =
      ['1', '2', '2', '0']
    rcases hsha : sha256 (toBytesBE 4 (uint32OfInt 12) ++
        fingerprintKeyData parse k) with _ | ⟨b, rest⟩
    · have hlen := sha256_length (toBytesBE 4 (uint32OfInt 12) ++
        fingerprintKeyData parse k)
      rw [hsha] at hlen
      simp at hlen
    · simp [ComputeHash, hexOfBytes, hsha, List.take]
      exact ⟨by decide, by decide, by decide⟩

/-! ## Claim C5: versioned-envelope wrapping -/

theorem varintEncode_length_pos (n : Nat) : 0 < (varintEncode n).length := by
  rw [varintEncode]
  split <;> simp

theorem uint64OfInt_lt (v : Int) : uint64OfInt v < 2 ^ 64 := by
  have h1 : (0 : Int) < 2 ^ 64 := by norm_num
  have h2 := Int.emod_lt_of_pos v h1
  have h3 := Int.emod_nonneg v (by norm_num : ((2 : Int) ^ 64) ≠ 0)
  rw [uint64OfInt]
  omega

theorem varintDecodeAux_encode (n : Nat) : ∀ (idx acc : Nat) (rest : List Nat),
    idx ≤ 9 → n < 2 ^ (64 - 7 * idx) →
    varintDecodeAux (varintEncode n ++ rest) idx acc =
      some (acc + (n <<< (7 * idx)), rest) := by
  induction n using Nat.strong_induction_on with
  | _ n ih =>
    intro idx acc rest hidx hn
    by_cases h128 : n < 0x80
    · rw [varintEncode, dif_pos h128]
      by_cases h9 : idx = 9
      · subst h9
        have hb : n ≤ 1 := by norm_num at hn; omega
        simp [varintDecodeAux, hb]
      · simp [varintDecodeAux, h9, h128]
    · rw [varintEncode, dif_neg h128]
      have h9 : idx ≠ 9 := by
        intro h
        subst h
        norm_num at hn
        omega
      have hidx8 : idx ≤ 8 := by omega
      simp only [List.cons_append, varintDecodeAux]
      rw [if_neg h9, if_neg (by omega : ¬(n % 0x80 + 0x80 < 0x80))]
      simp only [List.append_eq, Nat.add_sub_cancel]
      have hbound : n / 0x80 < 2 ^ (64 - 7 * (idx + 1)) := by
        rw [Nat.div_lt_iff_lt_mul (by norm_num : 0 < 0x80)]
        have hexp : 64 - 7 * idx = (64 - 7 * (idx + 1)) + 7 := by omega
        rw [hexp] at hn
        rw [pow_add] at hn
        norm_num at hn
        omega
      have ihh := ih (n / 0x80) (Nat.div_lt_self (by omega) (by omega))
        (idx + 1) (acc + (n % 0x80) <<< (7 * idx)) rest (by omega) hbound
      rw [ihh]
      have key : (n % 0x80) * 2 ^ (7 * idx) +
          (n / 0x80) * 2 ^ (7 * (idx + 1)) = n * 2 ^ (7 * idx) := by
        have hmd : n % 0x80 + 0x80 * (n / 0x80) = n := Nat.mod_add_div n 0x80
        have hp : (2 : Nat) ^ (7 * (idx + 1)) = 2 ^ (7 * idx) * 0x80 := by
          have h7 : 7 * (idx + 1) = 7 * idx + 7 := by ring
          rw [h7, pow_add]
          norm_num
        calc (n % 0x80) * 2 ^ (7 * idx) + (n / 0x80) * 2 ^ (7 * (idx + 1))
            = (n % 0x80) * 2 ^ (7 * idx) +
              (n / 0x80) * (2 ^ (7 * idx) * 0x80) := by rw [hp]
          _ = (n % 0x80 + 0x80 * (n / 0x80)) * 2 ^ (7 * idx) := by ring
          _ = n * 2 ^ (7 * idx) := by rw [hmd]
      rw [Nat.shiftLeft_eq, Nat.shiftLeft_eq, Nat.shiftLeft_eq,
        Nat.add_assoc, key]

theorem varintDecode_encode (n : Nat) (rest : List Nat) (h : n < 2 ^ 64) :
    varintDecode (varintEncode n ++ rest) = some (n, rest) := by
  have := varintDecodeAux_encode n 0 0 rest (by omega) (by simpa using h)
  simpa [varintDecode] using this

/-- Two steps of fuel always parse the version tail of a canonical envelope
serialization to completion. -/
theorem parseLoop_versionTail (v : Int) (acc : List Nat) (fuel : Nat) :
    parseEnvelopeLoop (fuel + 2)
      (if int32Of v = 0 then []
       else 0x10 :: varintEncode (uint64OfInt (int32Of v))) acc [] =
      some acc := by
  by_cases hv : int32Of v = 0
  · simp [hv, parseEnvelopeLoop]
  · rw [if_neg hv]
    have hvd := varintDecode_encode (uint64OfInt (int32Of v)) []
      (uint64OfInt_lt (int32Of v))
    rw [List.append_nil, varintDecode] at hvd
    simp [parseEnvelopeLoop, varintDecode, varintDecodeAux, hvd]

/-- Enough fuel always parses a canonical non-empty-`data` serialization
back to exactly that `data` value. -/
theorem parseLoop_serialized (data : List Nat) (v : Int)
    (hne : data ≠ []) (hlen : data.length < 2 ^ 64) (k : Nat) :
    parseEnvelopeLoop (k + 3)
      (0x0A :: (varintEncode data.length ++ (data ++
        (if int32Of v = 0 then []
         else 0x10 :: varintEncode (uint64OfInt (int32Of v)))))) [] [] =
      some data := by
  set tail := (if int32Of v = 0 then []
    else 0x10 :: varintEncode (uint64OfInt (int32Of v))) with htail
  have hvd := varintDecode_encode data.length (data ++ tail) hlen
  rw [varintDecode] at hvd
  have hnotlt : ¬((data ++ tail).length < data.length) := by
    simp [List.length_append]
  have htake : (data ++ tail).take data.length = data :=
    List.take_left data tail
  have hdrop : (data ++ tail).drop data.length = tail :=
    List.drop_left data tail
  show parseEnvelopeLoop ((k + 2) + 1) _ _ _ = some data
  simp only [parseEnvelopeLoop, varintDecode, varintDecodeAux]
  norm_num
  rw [hvd]
  simp only [hnotlt, reduceIte, htake, hdrop]
  refine ⟨by decide, ?_⟩
  rw [if_pos (by decide : (10 : Nat) >>> 3 = 1), htail]
  exact parseLoop_versionTail v data k

/-- A canonical serialization with non-empty `data` parses back to exactly
that `data` value. -/
theorem parseEnvelopeData_serialize (data : List Nat) (v : Int)
    (hne : data ≠ []) (hlen : data.length < 2 ^ 64) :
    parseEnvelopeData (serializeEnvelope data v) = some data := by
  have hser : serializeEnvelope data v =
      0x0A :: (varintEncode data.length ++ (data ++
        (if int32Of v = 0 then []
         else 0x10 :: varintEncode (uint64OfInt (int32Of v))))) := by
    simp [serializeEnvelope, hne]
  rw [parseEnvelopeData, hser]
  have hlen1 : 0 < (varintEncode data.length ++ (data ++
      (if int32Of v = 0 then []
       else 0x10 :: varintEncode (uint64OfInt (int32Of v))))).length := by
    have := varintEncode_length_pos data.length
    simp [List.length_append]
    omega
  rw [show (0x0A :: (varintEncode data.length ++ (data ++
      (if int32Of v = 0 then []
       else 0x10 :: varintEncode (uint64OfInt (int32Of v)))))).length + 1 =
      ((varintEncode data.length ++ (data ++
        (if int32Of v = 0 then []
         else 0x10 :: varintEncode (uint64OfInt (int32Of v))))).length - 1)
        + 3 by simp only [List.length_cons]; omega]
  exact parseLoop_serialized data v hne hlen _

/-- C5 (amended): the versioned wrap step emits already-wrapped bytes
unchanged (envelope parses with non-empty `data`) and otherwise wraps with
the default version; it is idempotent for every non-empty byte string.
(For the empty byte string with a non-zero default version it is not
idempotent; see the counterexample.) -/
theorem wrapVersioned_idempotent (v : Int) (b : List Nat) (hne : b ≠ [])
    (hlen : b.length < 2 ^ 64) :
    (∀ d, parseEnvelopeData b = some d → d ≠ [] → wrapVersioned v b = b) ∧
    ((parseEnvelopeData b = none ∨ parseEnvelopeData b = some []) →
      wrapVersioned v b = serializeEnvelope b v) ∧
    wrapVersioned v (wrapVersioned v b) = wrapVersioned v b := by
  refine ⟨?_, ?_, ?_⟩
  · intro d hp hd
    cases d with
    | nil => exact absurd rfl hd
    | cons y ys => simp [wrapVersioned, hp, List.isEmpty]
  · rintro (hp | hp) <;> simp [wrapVersioned, hp, List.isEmpty]
  · obtain ⟨x, xs, rfl⟩ : ∃ x xs, b = x :: xs := by
      cases b with
      | nil => exact absurd rfl hne
      | cons x xs => exact ⟨x, xs, rfl⟩
    rcases hp : parseEnvelopeData (x :: xs) with _ | d
    · have h1 : wrapVersioned v (x :: xs) = serializeEnvelope (x :: xs) v := by
        simp [wrapVersioned, hp]
      have h2 := parseEnvelopeData_serialize (x :: xs) v hne hlen
      rw [h1]
      simp [wrapVersioned, h2, List.isEmpty]
    · cases d with
      | nil =>
        have h1 : wrapVersioned v (x :: xs) = serializeEnvelope (x :: xs) v := by
          simp [wrapVersioned, hp, List.isEmpty]
        have h2 := parseEnvelopeData_serialize (x :: xs) v hne hlen
        rw [h1]
        simp [wrapVersioned, h2, List.isEmpty]
      | cons y ys =>
        have h1 : wrapVersioned v (x :: xs) = x :: xs := by
          simp [wrapVersioned, hp, List.isEmpty]
        rw [h1, h1]

/-- Witness: idempotence of the wrap step at the concrete payload `[1]`
with default version 30. -/
theorem wrapVersioned_idempotent_witness :
    wrapVersioned 30 (wrapVersioned 30 [1]) = wrapVersioned 30 [1] :=
  (wrapVersioned_idempotent 30 [1] (by decide) (by norm_num)).2.2

/-- C5 counterexample: on the empty byte string with default version 30 the
wrap step is not idempotent — the first wrap emits only the version field,
which parses as an envelope with empty `data` and so gets wrapped again. -/
theorem wrapVersioned_not_idempotent_on_empty :
    wrapVersioned 30 (wrapVersioned 30 []) ≠ wrapVersioned 30 [] := by
  have h0 : wrapVersioned 30 ([] : List Nat) = [0x10, 0x1E] := by
    have hp : parseEnvelopeData ([] : List Nat) = some [] := by
      simp [parseEnvelopeData, parseEnvelopeLoop]
    have hv : varintEncode 30 = [30] := by rw [varintEncode]; norm_num
    simp [wrapVersioned, hp, serializeEnvelope, (by decide : int32Of 30 = 30),
      (by decide : uint64OfInt 30 = 30), hv, List.isEmpty]
  have h1 : wrapVersioned 30 [0x10, 0x1E] =
      [0x0A, 0x02, 0x10, 0x1E, 0x10, 0x1E] := by
    have hp : parseEnvelopeData [0x10, 0x1E] = some [] := by
      simp [parseEnvelopeData, parseEnvelopeLoop, varintDecode,
        varintDecodeAux]
    have hv2 : varintEncode 2 = [2] := by rw [varintEncode]; norm_num
    have hv30 : varintEncode 30 = [30] := by rw [varintEncode]; norm_num
    simp [wrapVersioned, hp, serializeEnvelope, (by decide : int32Of 30 = 30),
      (by decide : uint64OfInt 30 = 30), hv2, hv30, List.isEmpty]
  rw [h0, h1]
  decide

/-! ## Claim C6: literal matching an existing file fails without `@` -/

/-- C6: an input specifier that is not `"-"`, does not start with `"@"`,
and names an existing regular (non-directory) file fails with the
dedicated missing-`@` error instead of being treated as a literal
payload. -/
theorem readData_missing_at_mark (env : ReadEnv) (codec : Base64Codec)
    (input : String) (isBase64 : Bool) (h1 : input ≠ "-")
    (h2 : strLeads "@" input = false)
    (h3 : env.statIsDir input = some false) :
    ReadData env codec input isBase64 =
      .error (.missingAtMark input) := by
  simp [ReadData, h1, h2, h3]

/-- A file system where `config.json` exists as a regular file. -/
def c6Env : ReadEnv :=
  ⟨none, fun _ => none, fun s => if s = "config.json" then some false
    else none⟩

/-- Base64 codecs that reject everything (never consulted here). -/
def c6Codec : Base64Codec := ⟨fun _ => none, fun _ => none⟩

/-- Witness: reading the literal `config.json` while that file exists on
disk fails with the missing-`@` error. -/
theorem readData_missing_at_mark_witness :
    ReadData c6Env c6Codec "config.json" false =
      .error (.missingAtMark "config.json") :=
  readData_missing_at_mark c6Env c6Codec "config.json" false (by decide)
    (by decide) (by simp [c6Env])

/-! ## Claim C8: enum example values -/

/-- C8 (amended): for an enum-kind field the template generator's example
value is the name of the value at declaration index 0 — the first-declared
value, regardless of its number — and `"UNKNOWN"` for an enum with no
values. -/
theorem enum_example_first_declared (name : String) (isL isM : Bool)
    (mv : Option FieldDesc) (values : List EnumValueDesc) :
    getSingleExampleValue (.mk name isL isM mv (.enumKind values)) =
      (match values with
      | v :: _ => .str v.name
      | [] => .str "UNKNOWN") := by
  cases values <;> simp [getSingleExampleValue]

/-- C8 counterexample: for an enum declared as `B = 5, A = 0` the value
with number 0 exists and is named `"A"`, but the generator emits the
first-declared name `"B"`. -/
theorem enum_example_not_number_zero :
    (∃ v, v ∈ [EnumValueDesc.mk "B" 5, EnumValueDesc.mk "A" 0] ∧
      v.number = 0 ∧ v.name = "A") ∧
    getSingleExampleValue
        (.mk "f" false false none
          (.enumKind [⟨"B", 5⟩, ⟨"A", 0⟩])) ≠ .str "A" ∧
    getSingleExampleValue
        (.mk "f" false false none
          (.enumKind [⟨"B", 5⟩, ⟨"A", 0⟩])) = .str "B" := by
  refine ⟨⟨⟨"A", 0⟩, by simp, rfl, rfl⟩, ?_, ?_⟩ <;>
    simp [getSingleExampleValue]

end Proton
